import Mathlib

/-! Shallow embedding of the Naive Bayes classification engine of the
`prediction-algorithms` repository.  The repository's notebook
(`naiveBayesClassifier.ipynb`) delegates the engine itself to an external
statistics library (`sklearn.naive_bayes`), so the engine is modelled from the
repository's specification; the worked example's data and expected outputs are
taken from the notebook.  Feature values are rationals (exact arithmetic in
place of the floating point of the source), labels are naturals. -/

/-- A single observation: a fixed-length ordered sequence of feature values. -/
abbrev Row := List ℚ

/-- A dense numeric matrix: rows are observations, columns are features. -/
abbrev FeatMatrix := List Row

/-- A label vector; labels are drawn from exactly two values. -/
abbrev Labels := List ℕ

/-- Modelled from the spec: Bernoulli preprocessing (the `binarize` step of
`BernoulliNB`, absent from the repository).  A feature value `v` becomes `1`
if `v > t` (strict) else `0`. -/
def binarize (t v : ℚ) : ℚ := if t < v then 1 else 0

/-- Binarize every feature of one observation. -/
def binarizeRow (t : ℚ) (r : Row) : Row := r.map (binarize t)

/-- Number of training rows carrying class label `c`. -/
def classCount (y : Labels) (c : ℕ) : ℕ := (y.filter (fun l => l == c)).length

/-- The training rows carrying class label `c`, in order. -/
def classRows (X : FeatMatrix) (y : Labels) (c : ℕ) : FeatMatrix :=
  ((X.zip y).filter (fun p => p.2 == c)).map Prod.fst

/-- Sum of column `j` over a list of rows (missing entries read as 0). -/
def featSum (rows : FeatMatrix) (j : ℕ) : ℚ := (rows.map (fun r => r.getD j 0)).sum

/-- The numerically smaller of the two observed class labels. -/
def lowClass (y : Labels) : ℕ := y.min?.getD 0

/-- The numerically larger of the two observed class labels. -/
def highClass (y : Labels) : ℕ := y.max?.getD 0

/-- Number of distinct labels observed in the training data. -/
def numClasses (y : Labels) : ℕ := y.dedup.length

/-- Modelled from the spec: the class-prior rule shared by the three fit
operations (the prior estimation inside the library's `fit`, absent from the
repository).  Empirical class frequency when prior-fitting is enabled,
otherwise a uniform prior over the observed classes. -/
def classPrior (y : Labels) (fitPrior : Bool) (c : ℕ) : ℚ :=
  if fitPrior then (classCount y c : ℚ) / (y.length : ℚ) else 1 / (numClasses y : ℚ)

/-- A valid binary training label vector: nonempty, every label is one of the
two extreme values, and the two are distinct (exactly two distinct labels). -/
def ValidLabels (y : Labels) : Prop :=
  y ≠ [] ∧ lowClass y ≠ highClass y ∧ ∀ l ∈ y, l = lowClass y ∨ l = highClass y

instance (y : Labels) : Decidable (ValidLabels y) := by
  unfold ValidLabels; infer_instance

/-- Parameters of a fitted Bernoulli model. -/
structure BernParams where
  classLow : ℕ
  classHigh : ℕ
  priorLow : ℚ
  priorHigh : ℚ
  pLow : List ℚ
  pHigh : List ℚ
  threshold : ℚ
deriving Repr, DecidableEq

/-- Modelled from the spec: the Bernoulli likelihood estimate of the library's
`BernoulliNB.fit` (absent from the repository):
`P(feature_j = 1 | c) = (count of binarized 1's among class-c rows for feature
j + alpha) / (count of class-c rows + 2 * alpha)`. -/
def bernLikelihood (X : FeatMatrix) (y : Labels) (α t : ℚ) (c j : ℕ) : ℚ :=
  (featSum ((classRows X y c).map (binarizeRow t)) j + α) /
    ((classCount y c : ℚ) + 2 * α)

/-- Modelled from the spec: the fit operation of the Bernoulli model
(`BernoulliNB.fit`, absent from the repository). -/
def BernNB.fit (X : FeatMatrix) (y : Labels) (α t : ℚ) (fitPrior : Bool) : BernParams :=
  { classLow := lowClass y
    classHigh := highClass y
    priorLow := classPrior y fitPrior (lowClass y)
    priorHigh := classPrior y fitPrior (highClass y)
    pLow := (List.range (X.headD []).length).map (fun j => bernLikelihood X y α t (lowClass y) j)
    pHigh := (List.range (X.headD []).length).map (fun j => bernLikelihood X y α t (highClass y) j)
    threshold := t }

/-- Product form of the Bernoulli per-observation likelihood: over feature `j`,
`p_j` when the binarized feature is 1, else `1 - p_j`. -/
def bernRowLik (ps : List ℚ) (b : Row) : ℚ :=
  ((ps.zip b).map (fun q => if q.2 = 1 then q.1 else 1 - q.1)).prod

/-- Posterior score of the lower class on one observation (prior times
likelihood product, the exponential of the spec's log score). -/
def bernScoreLow (m : BernParams) (x : Row) : ℚ :=
  m.priorLow * bernRowLik m.pLow (binarizeRow m.threshold x)

/-- Posterior score of the higher class on one observation. -/
def bernScoreHigh (m : BernParams) (x : Row) : ℚ :=
  m.priorHigh * bernRowLik m.pHigh (binarizeRow m.threshold x)

/-- Modelled from the spec: the Bernoulli predict on one observation
(`BernoulliNB.predict`, absent from the repository): argmax of the posterior
scores over the two classes, ties broken toward the first (lower) class. -/
def BernNB.predictOne (m : BernParams) (x : Row) : ℕ :=
  if bernScoreLow m x < bernScoreHigh m x then m.classHigh else m.classLow

/-- Predict a label for every row of an input matrix. -/
def BernNB.predict (m : BernParams) (X : FeatMatrix) : Labels :=
  X.map (BernNB.predictOne m)

/-- The spec's Bernoulli log likelihood of one (already binarized) observation:
`Σ_j [x_j * log P(f_j=1|c) + (1-x_j) * log P(f_j=0|c)]`. -/
noncomputable def bernLogLik (ps : List ℚ) (b : Row) : ℝ :=
  ((ps.zip b).map (fun q =>
    (q.2 : ℝ) * Real.log (q.1 : ℝ) + (1 - (q.2 : ℝ)) * Real.log (1 - (q.1 : ℝ)))).sum

/-- The spec's Bernoulli posterior log score: log prior plus the summed
per-feature log likelihoods of the binarized observation. -/
noncomputable def bernLogScore (prior : ℚ) (ps : List ℚ) (t : ℚ) (x : Row) : ℝ :=
  Real.log (prior : ℝ) + bernLogLik ps (binarizeRow t x)

/-- Training matrix of the end-to-end scenario (spec §8; worked example of the
notebook's `model_example` cell). -/
def X_scenario : FeatMatrix :=
  [[1,0,0],[1,0,0],[1,0,0],
   [0,1,0],[0,1,0],[0,1,0],[0,1,0],[0,1,0],[0,1,0],[0,1,0],[0,1,0],
   [0,0,1],[0,0,1],[0,0,1],[0,0,1]]

/-- Label vector of the end-to-end scenario (`y_example` of the notebook). -/
def y_scenario : Labels := [0,0,1,0,0,0,0,0,1,1,1,1,1,1,1]

/-- The fitted Bernoulli model of the end-to-end scenario (`model_example` of
the notebook, with the claimed configuration `alpha = 1`,
`binarize_threshold = 1/2`, `fit_prior = true`). -/
def model_scenario : BernParams := BernNB.fit X_scenario y_scenario 1 (1/2) true

/-- Modelled from the spec: the error taxonomy of the engine (the repository's
validation lives inside the library; only `InvalidInputError` for negative
Multinomial features is needed by the claims). -/
inductive NBError where
  | invalidInput
deriving Repr, DecidableEq

/-- Does the matrix contain a strictly negative feature value? -/
def hasNegative (X : FeatMatrix) : Bool :=
  X.any (fun r => r.any (fun v => decide (v < 0)))

/-- Parameters of a fitted Multinomial model. -/
structure MultiParams where
  classLow : ℕ
  classHigh : ℕ
  priorLow : ℚ
  priorHigh : ℚ
  pLow : List ℚ
  pHigh : List ℚ
deriving Repr, DecidableEq

/-- Modelled from the spec: the Multinomial likelihood estimate of the
library's `MultinomialNB.fit` (absent from the repository):
`P(f_j | c) = (sum of x_j over class-c rows + alpha) / (sum of all feature
totals over class-c rows + alpha * n_features)`. -/
def multiLikelihood (X : FeatMatrix) (y : Labels) (α : ℚ) (nF c j : ℕ) : ℚ :=
  (featSum (classRows X y c) j + α) /
    (((List.range nF).map (fun i => featSum (classRows X y c) i)).sum + α * (nF : ℚ))

/-- Modelled from the spec: the fit operation of the Multinomial model
(`MultinomialNB.fit`, absent from the repository).  The negative-feature check
is performed eagerly, before any parameter is computed. -/
def MultiNB.fit (X : FeatMatrix) (y : Labels) (α : ℚ) (fitPrior : Bool) :
    Except NBError MultiParams :=
  if hasNegative X then .error .invalidInput else
    .ok { classLow := lowClass y
          classHigh := highClass y
          priorLow := classPrior y fitPrior (lowClass y)
          priorHigh := classPrior y fitPrior (highClass y)
          pLow := (List.range (X.headD []).length).map
            (fun j => multiLikelihood X y α (X.headD []).length (lowClass y) j)
          pHigh := (List.range (X.headD []).length).map
            (fun j => multiLikelihood X y α (X.headD []).length (highClass y) j) }

/-- The spec's Multinomial posterior log score:
`log P(c) + Σ_j x_j * log P(f_j | c)`. -/
noncomputable def multiLogScore (prior : ℚ) (ps : List ℚ) (x : Row) : ℝ :=
  Real.log (prior : ℝ) + ((ps.zip x).map (fun q => (q.2 : ℝ) * Real.log (q.1 : ℝ))).sum

/-- Modelled from the spec: the Multinomial predict on one observation
(`MultinomialNB.predict`, absent from the repository): argmax of the posterior
log scores, ties broken toward the first (lower) class. -/
noncomputable def MultiNB.predictOne (m : MultiParams) (x : Row) : ℕ :=
  if multiLogScore m.priorLow m.pLow x < multiLogScore m.priorHigh m.pHigh x then
    m.classHigh
  else m.classLow

/-- Modelled from the spec: Multinomial predict over a matrix, with the eager
negative-feature check performed before any label is produced. -/
noncomputable def MultiNB.predict (m : MultiParams) (X : FeatMatrix) :
    Except NBError Labels :=
  if hasNegative X then .error .invalidInput
  else .ok (X.map (MultiNB.predictOne m))

/-- Parameters of a fitted Gaussian model. -/
structure GaussParams where
  classLow : ℕ
  classHigh : ℕ
  priorLow : ℚ
  priorHigh : ℚ
  meanLow : List ℚ
  meanHigh : List ℚ
  varLow : List ℚ
  varHigh : List ℚ
deriving Repr, DecidableEq

/-- Sample mean of column `j` over a list of rows. -/
def featMean (rows : FeatMatrix) (j : ℕ) : ℚ := featSum rows j / (rows.length : ℚ)

/-- Sample variance of column `j` over a list of rows. -/
def featVar (rows : FeatMatrix) (j : ℕ) : ℚ :=
  ((rows.map (fun r => (r.getD j 0 - featMean rows j) ^ 2)).sum) / (rows.length : ℚ)

/-- Largest raw per-class per-feature variance observed across all features of
both classes. -/
def maxVar (rows0 rows1 : FeatMatrix) (nF : ℕ) : ℚ :=
  (((List.range nF).map (fun j => featVar rows0 j)) ++
    ((List.range nF).map (fun j => featVar rows1 j))).foldr max 0

/-- Modelled from the spec: the fit operation of the Gaussian model
(`GaussianNB.fit`, absent from the repository): per class and feature, the
sample mean and variance, every variance floored by the epsilon
`1e-9 * max_variance`. -/
def GaussNB.fit (X : FeatMatrix) (y : Labels) (fitPrior : Bool) : GaussParams :=
  let nF := (X.headD []).length
  let rows0 := classRows X y (lowClass y)
  let rows1 := classRows X y (highClass y)
  let eps := (1 / 1000000000 : ℚ) * maxVar rows0 rows1 nF
  { classLow := lowClass y
    classHigh := highClass y
    priorLow := classPrior y fitPrior (lowClass y)
    priorHigh := classPrior y fitPrior (highClass y)
    meanLow := (List.range nF).map (fun j => featMean rows0 j)
    meanHigh := (List.range nF).map (fun j => featMean rows1 j)
    varLow := (List.range nF).map (fun j => featVar rows0 j + eps)
    varHigh := (List.range nF).map (fun j => featVar rows1 j + eps) }

/-- The spec's Gaussian posterior log score:
`log P(c) + Σ_j [-1/2 * log (2 π σ²_cj) - (x_j - μ_cj)² / (2 σ²_cj)]`. -/
noncomputable def gaussLogScore (prior : ℚ) (μs σs : List ℚ) (x : Row) : ℝ :=
  Real.log (prior : ℝ) +
    (((μs.zip σs).zip x).map (fun q =>
      -(1 / 2 : ℝ) * Real.log (2 * Real.pi * (q.1.2 : ℝ)) -
        ((q.2 : ℝ) - (q.1.1 : ℝ)) ^ 2 / (2 * (q.1.2 : ℝ)))).sum

/-- Modelled from the spec: the Gaussian predict on one observation
(`GaussianNB.predict`, absent from the repository): argmax of the posterior log
scores, ties broken toward the first (lower) class. -/
noncomputable def GaussNB.predictOne (m : GaussParams) (x : Row) : ℕ :=
  if gaussLogScore m.priorLow m.meanLow m.varLow x <
      gaussLogScore m.priorHigh m.meanHigh m.varHigh x then
    m.classHigh
  else m.classLow

/-- Gaussian predict over a matrix. -/
noncomputable def GaussNB.predict (m : GaussParams) (X : FeatMatrix) : Labels :=
  X.map (GaussNB.predictOne m)

/-- Result of a precision or recall computation: the value together with an
explicit flag telling whether the value was computed (`true`) or defaulted to
0 because the denominator was 0 (`false`). -/
structure MetricResult where
  value : ℚ
  defined : Bool
deriving Repr, DecidableEq

/-- Number of positions where the true label is `a` and the predicted label is
`b` (one cell of the confusion matrix). -/
def pairCount (yt yp : Labels) (a b : ℕ) : ℕ :=
  ((yt.zip yp).filter (fun q => q.1 == a && q.2 == b)).length

/-- Number of true positives with respect to the positive class `pos`. -/
def truePos (pos : ℕ) (yt yp : Labels) : ℕ :=
  ((yt.zip yp).filter (fun q => q.1 == pos && q.2 == pos)).length

/-- Number of false positives with respect to the positive class `pos`. -/
def falsePos (pos : ℕ) (yt yp : Labels) : ℕ :=
  ((yt.zip yp).filter (fun q => !(q.1 == pos) && q.2 == pos)).length

/-- Number of false negatives with respect to the positive class `pos`. -/
def falseNeg (pos : ℕ) (yt yp : Labels) : ℕ :=
  ((yt.zip yp).filter (fun q => q.1 == pos && !(q.2 == pos))).length

/-- Modelled from the spec: precision (`precision_score` of the notebook is a
library call), positive class the numerically larger observed label, with the
zero-denominator policy of returning 0 flagged as not defined. -/
def precision_score (yt yp : Labels) : MetricResult :=
  let pos := highClass (yt ++ yp)
  if truePos pos yt yp + falsePos pos yt yp = 0 then ⟨0, false⟩
  else ⟨(truePos pos yt yp : ℚ) / ((truePos pos yt yp + falsePos pos yt yp : ℕ) : ℚ), true⟩

/-- Modelled from the spec: recall (`recall_score` of the notebook is a library
call), same zero-denominator policy as precision. -/
def recall_score (yt yp : Labels) : MetricResult :=
  let pos := highClass (yt ++ yp)
  if truePos pos yt yp + falseNeg pos yt yp = 0 then ⟨0, false⟩
  else ⟨(truePos pos yt yp : ℚ) / ((truePos pos yt yp + falseNeg pos yt yp : ℕ) : ℚ), true⟩

/-- Modelled from the spec: accuracy = correct / total (`accuracy_score` of
the notebook is a library call). -/
def accuracy_score (yt yp : Labels) : ℚ :=
  (((yt.zip yp).filter (fun q => q.1 == q.2)).length : ℚ) / (yt.length : ℚ)

/-- Modelled from the spec: the 2×2 confusion matrix (`confusion_matrix` of
the notebook is a library call), as the four counts
(true low ∧ predicted low, true low ∧ predicted high,
true high ∧ predicted low, true high ∧ predicted high). -/
def confusion_matrix (yt yp : Labels) : ℕ × ℕ × ℕ × ℕ :=
  (pairCount yt yp (lowClass (yt ++ yp)) (lowClass (yt ++ yp)),
   pairCount yt yp (lowClass (yt ++ yp)) (highClass (yt ++ yp)),
   pairCount yt yp (highClass (yt ++ yp)) (lowClass (yt ++ yp)),
   pairCount yt yp (highClass (yt ++ yp)) (highClass (yt ++ yp)))

/-- The bundle returned by the evaluation step. -/
structure EvalResult where
  accuracy : ℚ
  prec : MetricResult
  recl : MetricResult
  confusion : ℕ × ℕ × ℕ × ℕ
deriving Repr, DecidableEq

/-- Modelled from the spec: `evaluate(y_true, y_pred)` returning accuracy,
precision, recall and the confusion matrix. -/
def evaluate (yt yp : Labels) : EvalResult :=
  { accuracy := accuracy_score yt yp
    prec := precision_score yt yp
    recl := recall_score yt yp
    confusion := confusion_matrix yt yp }

/-! Helper lemmas shared by the claim theorems. -/

theorem lowClass_mem {y : Labels} (hy : y ≠ []) : lowClass y ∈ y := by
  cases hmin : y.min? with
  | none =>
    cases y with
    | nil => exact absurd rfl hy
    | cons a t => simp [List.min?] at hmin
  | some a =>
    have ha := List.min?_mem (fun a b => min_choice a b) hmin
    simpa [lowClass, hmin] using ha

theorem highClass_mem {y : Labels} (hy : y ≠ []) : highClass y ∈ y := by
  cases hmax : y.max? with
  | none =>
    cases y with
    | nil => exact absurd rfl hy
    | cons a t => simp [List.max?] at hmax
  | some a =>
    have ha := List.max?_mem (fun a b => max_choice a b) hmax
    simpa [highClass, hmax] using ha

theorem filter_two_classes {c0 c1 : ℕ} (l : List ℕ) (hne : c0 ≠ c1)
    (h : ∀ x ∈ l, x = c0 ∨ x = c1) :
    (l.filter (fun x => x == c0)).length + (l.filter (fun x => x == c1)).length
      = l.length := by
  induction l with
  | nil => simp
  | cons a t ih =>
    have ht : ∀ x ∈ t, x = c0 ∨ x = c1 := fun x hx => h x (by simp [hx])
    have := ih ht
    rcases h a (by simp) with ha | ha <;> subst ha <;>
      simp [List.filter_cons, hne, Ne.symm hne] <;> omega

theorem classCount_low_add_high {y : Labels} (hv : ValidLabels y) :
    classCount y (lowClass y) + classCount y (highClass y) = y.length :=
  filter_two_classes y hv.2.1 hv.2.2

theorem numClasses_eq_two {y : Labels} (hv : ValidLabels y) : numClasses y = 2 := by
  obtain ⟨hne, hlh, hall⟩ := hv
  have h1 : y.toFinset = {lowClass y, highClass y} := by
    ext a
    simp only [List.mem_toFinset, Finset.mem_insert, Finset.mem_singleton]
    constructor
    · exact hall a
    · rintro (rfl | rfl)
      · exact lowClass_mem hne
      · exact highClass_mem hne
  have h2 : y.dedup.toFinset = y.toFinset := by
    ext a; simp [List.mem_toFinset, List.mem_dedup]
  have h3 : y.dedup.toFinset.card = y.dedup.length :=
    List.toFinset_card_of_nodup (List.nodup_dedup y)
  unfold numClasses
  rw [← h3, h2, h1]
  exact Finset.card_pair hlh

theorem classPrior_low_add_high {y : Labels} (hv : ValidLabels y) (fp : Bool) :
    classPrior y fp (lowClass y) + classPrior y fp (highClass y) = 1 := by
  cases fp with
  | false =>
    simp only [classPrior, if_neg Bool.false_ne_true, numClasses_eq_two hv]
    norm_num
  | true =>
    rw [show classPrior y true (lowClass y)
          = (classCount y (lowClass y) : ℚ) / (y.length : ℚ) from rfl,
        show classPrior y true (highClass y)
          = (classCount y (highClass y) : ℚ) / (y.length : ℚ) from rfl]
    have hc := classCount_low_add_high hv
    have hlen : (y.length : ℚ) ≠ 0 := by
      have : y.length ≠ 0 := by
        simpa [List.length_eq_zero] using hv.1
      exact_mod_cast this
    rw [div_add_div_same, ← Nat.cast_add, hc]
    exact div_self hlen

theorem binarize_eq_one_iff (t v : ℚ) : binarize t v = 1 ↔ t < v := by
  unfold binarize
  split <;> simp_all

theorem binarize_eq_zero_iff (t v : ℚ) : binarize t v = 0 ↔ v ≤ t := by
  unfold binarize
  split <;> simp_all

theorem binarize_mem {t v : ℚ} : binarize t v = 0 ∨ binarize t v = 1 := by
  unfold binarize; split <;> simp

theorem binarizeRow_mem {t : ℚ} {r : Row} : ∀ v ∈ binarizeRow t r, v = 0 ∨ v = 1 := by
  intro v hv
  obtain ⟨w, _, rfl⟩ := List.mem_map.mp hv
  exact binarize_mem

theorem binarizeRow_getD {t : ℚ} {r : Row} {j : ℕ} (hj : j < r.length) :
    (binarizeRow t r).getD j 0 = binarize t (r.getD j 0) := by
  unfold binarizeRow
  rw [List.getD_eq_getElem?_getD, List.getElem?_map, List.getD_eq_getElem?_getD,
    List.getElem?_eq_getElem hj]
  simp

theorem featSum_cons (r : Row) (rs : FeatMatrix) (j : ℕ) :
    featSum (r :: rs) j = r.getD j 0 + featSum rs j := by
  simp [featSum]

theorem featSum_binarized (rows : FeatMatrix) (t : ℚ) (j : ℕ)
    (h : ∀ r ∈ rows, j < r.length) :
    featSum (rows.map (binarizeRow t)) j =
      ((rows.filter (fun r => decide (t < r.getD j 0))).length : ℚ) := by
  induction rows with
  | nil => simp [featSum]
  | cons r rs ih =>
    have hr : j < r.length := h r (by simp)
    have hrest := ih (fun q hq => h q (by simp [hq]))
    rw [List.map_cons, featSum_cons, hrest, List.filter_cons, binarizeRow_getD hr]
    by_cases hlt : t < r.getD j 0
    · rw [(binarize_eq_one_iff t _).mpr hlt, if_pos (by simpa using hlt), List.length_cons]
      push_cast
      ring
    · rw [(binarize_eq_zero_iff t _).mpr (le_of_not_lt hlt), if_neg (by simpa using hlt)]
      ring

theorem bernRowLik_pos_log (ps : List ℚ) (b : Row)
    (hp : ∀ p ∈ ps, 0 < p ∧ p < 1) (hb : ∀ v ∈ b, v = 0 ∨ v = 1) :
    0 < bernRowLik ps b ∧
      Real.log ((bernRowLik ps b : ℚ) : ℝ) = bernLogLik ps b := by
  induction ps generalizing b with
  | nil => simp [bernRowLik, bernLogLik]
  | cons p ps ih =>
    cases b with
    | nil => simp [bernRowLik, bernLogLik]
    | cons v b =>
      obtain ⟨hp0, hp1⟩ := hp p (by simp)
      have hps : ∀ q ∈ ps, 0 < q ∧ q < 1 := fun q hq => hp q (by simp [hq])
      have hbs : ∀ w ∈ b, w = 0 ∨ w = 1 := fun w hw => hb w (by simp [hw])
      obtain ⟨ihpos, ihlog⟩ := ih b hps hbs
      have hv := hb v (by simp)
      have hhd : (0 : ℚ) < if v = 1 then p else 1 - p := by
        rcases hv with rfl | rfl
        · simp
          linarith
        · simpa using hp0
      have hsplit : bernRowLik (p :: ps) (v :: b)
          = (if v = 1 then p else 1 - p) * bernRowLik ps b := by
        simp [bernRowLik]
      refine ⟨by rw [hsplit]; exact mul_pos hhd ihpos, ?_⟩
      rw [hsplit]
      push_cast
      rw [Real.log_mul (by positivity) (by positivity)]
      have hlog : Real.log ((if v = 1 then (p : ℝ) else 1 - (p : ℝ)))
          = (v : ℝ) * Real.log (p : ℝ) + (1 - (v : ℝ)) * Real.log (1 - (p : ℝ)) := by
        rcases hv with rfl | rfl
        · norm_num
        · norm_num
      have hcast : ((if v = 1 then p else 1 - p : ℚ) : ℝ)
          = if v = 1 then (p : ℝ) else 1 - (p : ℝ) := by
        split <;> push_cast <;> ring
      rw [hcast, hlog, ihlog]
      simp [bernLogLik]

theorem bernScoreLow_pos (m : BernParams) (x : Row) (hl : 0 < m.priorLow)
    (hpl : ∀ p ∈ m.pLow, 0 < p ∧ p < 1) : 0 < bernScoreLow m x :=
  mul_pos hl (bernRowLik_pos_log m.pLow (binarizeRow m.threshold x) hpl binarizeRow_mem).1

theorem bernScoreHigh_pos (m : BernParams) (x : Row) (hh : 0 < m.priorHigh)
    (hph : ∀ p ∈ m.pHigh, 0 < p ∧ p < 1) : 0 < bernScoreHigh m x :=
  mul_pos hh (bernRowLik_pos_log m.pHigh (binarizeRow m.threshold x) hph binarizeRow_mem).1

theorem bernLogScore_low_eq (m : BernParams) (x : Row) (hl : 0 < m.priorLow)
    (hpl : ∀ p ∈ m.pLow, 0 < p ∧ p < 1) :
    bernLogScore m.priorLow m.pLow m.threshold x
      = Real.log ((bernScoreLow m x : ℚ) : ℝ) := by
  obtain ⟨hLpos, hLlog⟩ :=
    bernRowLik_pos_log m.pLow (binarizeRow m.threshold x) hpl binarizeRow_mem
  unfold bernLogScore bernScoreLow
  push_cast
  rw [Real.log_mul (by exact_mod_cast hl.ne') (by exact_mod_cast hLpos.ne'), ← hLlog]

theorem bernLogScore_high_eq (m : BernParams) (x : Row) (hh : 0 < m.priorHigh)
    (hph : ∀ p ∈ m.pHigh, 0 < p ∧ p < 1) :
    bernLogScore m.priorHigh m.pHigh m.threshold x
      = Real.log ((bernScoreHigh m x : ℚ) : ℝ) := by
  obtain ⟨hHpos, hHlog⟩ :=
    bernRowLik_pos_log m.pHigh (binarizeRow m.threshold x) hph binarizeRow_mem
  unfold bernLogScore bernScoreHigh
  push_cast
  rw [Real.log_mul (by exact_mod_cast hh.ne') (by exact_mod_cast hHpos.ne'), ← hHlog]

theorem bernLogScore_lt_iff (m : BernParams) (x : Row)
    (hl : 0 < m.priorLow) (hh : 0 < m.priorHigh)
    (hpl : ∀ p ∈ m.pLow, 0 < p ∧ p < 1) (hph : ∀ p ∈ m.pHigh, 0 < p ∧ p < 1) :
    (bernLogScore m.priorLow m.pLow m.threshold x
        < bernLogScore m.priorHigh m.pHigh m.threshold x
      ↔ bernScoreLow m x < bernScoreHigh m x) := by
  rw [bernLogScore_low_eq m x hl hpl, bernLogScore_high_eq m x hh hph,
    Real.log_lt_log_iff (by exact_mod_cast bernScoreLow_pos m x hl hpl)
      (by exact_mod_cast bernScoreHigh_pos m x hh hph)]
  exact Rat.cast_lt

theorem four_cell_partition (l : List (ℕ × ℕ)) (c0 c1 : ℕ) (hne : c0 ≠ c1)
    (h : ∀ q ∈ l, (q.1 = c0 ∨ q.1 = c1) ∧ (q.2 = c0 ∨ q.2 = c1)) :
    (l.filter (fun q => q.1 == c0 && q.2 == c0)).length +
      (l.filter (fun q => q.1 == c0 && q.2 == c1)).length +
      (l.filter (fun q => q.1 == c1 && q.2 == c0)).length +
      (l.filter (fun q => q.1 == c1 && q.2 == c1)).length = l.length := by
  induction l with
  | nil => simp
  | cons q t ih =>
    have ht := ih (fun p hp => h p (by simp [hp]))
    obtain ⟨h1, h2⟩ := h q (by simp)
    rcases h1 with h1 | h1 <;> rcases h2 with h2 | h2 <;>
      simp [List.filter_cons, h1, h2, hne, Ne.symm hne] <;> omega

theorem classRows_subset {X : FeatMatrix} {y : Labels} {c : ℕ} :
    ∀ r ∈ classRows X y c, r ∈ X := by
  intro r hr
  unfold classRows at hr
  obtain ⟨q, hq, rfl⟩ := List.mem_map.mp hr
  exact (List.of_mem_zip (List.mem_of_mem_filter hq)).1

theorem bernFit_pLow_getD (X : FeatMatrix) (y : Labels) (α t : ℚ) (fp : Bool)
    {j : ℕ} (hj : j < (X.headD []).length) :
    (BernNB.fit X y α t fp).pLow.getD j 0 = bernLikelihood X y α t (lowClass y) j := by
  unfold BernNB.fit
  rw [List.getD_eq_getElem?_getD, List.getElem?_map, List.getElem?_range hj]
  simp

theorem bernFit_pHigh_getD (X : FeatMatrix) (y : Labels) (α t : ℚ) (fp : Bool)
    {j : ℕ} (hj : j < (X.headD []).length) :
    (BernNB.fit X y α t fp).pHigh.getD j 0 = bernLikelihood X y α t (highClass y) j := by
  unfold BernNB.fit
  rw [List.getD_eq_getElem?_getD, List.getElem?_map, List.getElem?_range hj]
  simp

/-- Two observations carry the same binarized pattern at threshold `t`: they
have the same feature count and their features fall on the same side of the
threshold. -/
def SamePattern (t : ℚ) (x x' : Row) : Prop :=
  x.length = x'.length ∧ ∀ j, j < x.length → (t < x.getD j 0 ↔ t < x'.getD j 0)

theorem binarizeRow_eq_of_samePattern {t : ℚ} {x x' : Row} (h : SamePattern t x x') :
    binarizeRow t x = binarizeRow t x' := by
  obtain ⟨hlen, hpat⟩ := h
  apply List.ext_getElem (by simp [binarizeRow, hlen])
  intro j h1 h2
  have hj : j < x.length := by simpa [binarizeRow] using h1
  have hj' : j < x'.length := hlen ▸ hj
  have hiff := hpat j hj
  rw [List.getD_eq_getElem x 0 hj, List.getD_eq_getElem x' 0 hj'] at hiff
  simp only [binarizeRow, List.getElem_map]
  unfold binarize
  by_cases hc : t < x[j]
  · rw [if_pos hc, if_pos (hiff.mp hc)]
  · rw [if_neg hc, if_neg (fun hc' => hc (hiff.mpr hc'))]

theorem samePattern_head_length {t : ℚ} {X X' : FeatMatrix}
    (h : List.Forall₂ (SamePattern t) X X') :
    (X.headD []).length = (X'.headD []).length := by
  cases h with
  | nil => rfl
  | cons hxy _ => exact hxy.1

theorem classRows_forall₂ {t : ℚ} {X X' : FeatMatrix} {c : ℕ}
    (h : List.Forall₂ (SamePattern t) X X') (y : Labels) :
    List.Forall₂ (SamePattern t) (classRows X y c) (classRows X' y c) := by
  unfold classRows
  induction h generalizing y with
  | nil => simp
  | cons hxy htail ih =>
    cases y with
    | nil => simp
    | cons c' ys =>
      simp only [List.zip_cons_cons, List.filter_cons]
      by_cases hc : (c' == c) = true
      · simpa [hc] using List.Forall₂.cons hxy (ih ys)
      · simpa [hc] using ih ys

theorem map_binarizeRow_forall₂ {t : ℚ} {l l' : FeatMatrix}
    (h : List.Forall₂ (SamePattern t) l l') :
    l.map (binarizeRow t) = l'.map (binarizeRow t) := by
  induction h with
  | nil => rfl
  | cons hxy _ ih => simp [binarizeRow_eq_of_samePattern hxy, ih]

theorem bernLikelihood_samePattern {t : ℚ} {X X' : FeatMatrix}
    (h : List.Forall₂ (SamePattern t) X X') (y : Labels) (α : ℚ) (c j : ℕ) :
    bernLikelihood X y α t c j = bernLikelihood X' y α t c j := by
  unfold bernLikelihood
  rw [map_binarizeRow_forall₂ (classRows_forall₂ h y)]

theorem bernFit_samePattern {t : ℚ} {X X' : FeatMatrix}
    (h : List.Forall₂ (SamePattern t) X X') (y : Labels) (α : ℚ) (fp : Bool) :
    BernNB.fit X y α t fp = BernNB.fit X' y α t fp := by
  unfold BernNB.fit
  rw [samePattern_head_length h]
  simp only [BernParams.mk.injEq, and_true, true_and]
  exact ⟨List.map_congr_left fun j _ => bernLikelihood_samePattern h y α _ j,
    List.map_congr_left fun j _ => bernLikelihood_samePattern h y α _ j⟩

theorem samePattern_binarizeRow {t : ℚ} (h0 : 0 ≤ t) (h1 : t < 1) (x : Row) :
    SamePattern t (binarizeRow t x) x := by
  refine ⟨by simp [binarizeRow], ?_⟩
  intro j hj
  have hj' : j < x.length := by simpa [binarizeRow] using hj
  rw [binarizeRow_getD hj']
  unfold binarize
  by_cases hc : t < x.getD j 0
  · rw [if_pos hc]
    exact ⟨fun _ => hc, fun _ => h1⟩
  · rw [if_neg hc]
    exact ⟨fun hlt => (lt_irrefl (0 : ℚ) (h0.trans_lt hlt)).elim, fun hlt => absurd hlt hc⟩

theorem bernPredictOne_samePattern (m : BernParams) {x x' : Row}
    (h : SamePattern m.threshold x x') :
    BernNB.predictOne m x = BernNB.predictOne m x' := by
  unfold BernNB.predictOne bernScoreLow bernScoreHigh
  rw [binarizeRow_eq_of_samePattern h]

/-! Claim theorems. -/

set_option maxHeartbeats 1000000 in
/-- C1: fitting the Bernoulli model with `binarize_threshold = 1/2` and
`fit_prior = true` on the scenario training rows with the scenario labels and
predicting the single observation `[0,1,0]` yields the label 0, and the
class-0 posterior score strictly exceeds the class-1 score. -/
theorem scenario_prediction :
    BernNB.predict model_scenario [[0,1,0]] = [0] ∧
      bernScoreHigh model_scenario [0,1,0] < bernScoreLow model_scenario [0,1,0] := by
  norm_num [BernNB.predict, BernNB.predictOne, model_scenario, BernNB.fit, X_scenario,
    y_scenario, bernScoreLow, bernScoreHigh, bernRowLik, bernLikelihood, classPrior,
    classCount, classRows, featSum, binarizeRow, binarize, lowClass, highClass,
    List.min?, List.max?, List.range_succ]

/-- C2: for every valid training dataset, Bernoulli fit estimates, for each
class and feature `j`, `P(feature_j = 1 | c)` as (count of binarized 1's among
class-c rows for feature `j` + alpha) / (count of class-c rows + 2 * alpha);
the class prior is the empirical class frequency when prior-fitting is
enabled, otherwise the uniform prior 1/2 over the two observed classes. -/
theorem bernoulli_fit_estimates (X : FeatMatrix) (y : Labels) (α t : ℚ) (fp : Bool)
    (j : ℕ) (hv : ValidLabels y) (hj : j < (X.headD []).length)
    (hrows : ∀ r ∈ X, r.length = (X.headD []).length) :
    (BernNB.fit X y α t fp).pLow.getD j 0
        = ((((classRows X y (lowClass y)).filter
              (fun r => decide (t < r.getD j 0))).length : ℚ) + α)
          / ((classCount y (lowClass y) : ℚ) + 2 * α) ∧
    (BernNB.fit X y α t fp).pHigh.getD j 0
        = ((((classRows X y (highClass y)).filter
              (fun r => decide (t < r.getD j 0))).length : ℚ) + α)
          / ((classCount y (highClass y) : ℚ) + 2 * α) ∧
    (fp = true → (BernNB.fit X y α t fp).priorLow
        = (classCount y (lowClass y) : ℚ) / (y.length : ℚ) ∧
      (BernNB.fit X y α t fp).priorHigh
        = (classCount y (highClass y) : ℚ) / (y.length : ℚ)) ∧
    (fp = false → (BernNB.fit X y α t fp).priorLow = 1 / 2 ∧
      (BernNB.fit X y α t fp).priorHigh = 1 / 2) := by
  have hlow : ∀ r ∈ classRows X y (lowClass y), j < r.length := fun r hr =>
    (hrows r (classRows_subset r hr)) ▸ hj
  have hhigh : ∀ r ∈ classRows X y (highClass y), j < r.length := fun r hr =>
    (hrows r (classRows_subset r hr)) ▸ hj
  refine ⟨?_, ?_, ?_, ?_⟩
  · rw [bernFit_pLow_getD X y α t fp hj]
    unfold bernLikelihood
    rw [featSum_binarized _ t j hlow]
  · rw [bernFit_pHigh_getD X y α t fp hj]
    unfold bernLikelihood
    rw [featSum_binarized _ t j hhigh]
  · rintro rfl
    exact ⟨rfl, rfl⟩
  · rintro rfl
    constructor
    · show classPrior y false (lowClass y) = 1 / 2
      unfold classPrior
      rw [if_neg (by simp), numClasses_eq_two hv]
      norm_num
    · show classPrior y false (highClass y) = 1 / 2
      unfold classPrior
      rw [if_neg (by simp), numClasses_eq_two hv]
      norm_num

/-- C3: Multinomial fit and predict fail with the invalid-input error exactly
when some feature value is negative; the check precedes everything else (the
error is produced for every label vector, smoothing constant and parameter
set), and non-negative matrices never produce it. -/
theorem multinomial_negative_input (X : FeatMatrix) (y : Labels) (α : ℚ) (fp : Bool)
    (m : MultiParams) :
    ((∃ r ∈ X, ∃ v ∈ r, v < 0) →
      MultiNB.fit X y α fp = .error .invalidInput ∧
      MultiNB.predict m X = .error .invalidInput) ∧
    ((∀ r ∈ X, ∀ v ∈ r, 0 ≤ v) →
      (∃ p, MultiNB.fit X y α fp = .ok p) ∧ ∃ ls, MultiNB.predict m X = .ok ls) := by
  have hiff : hasNegative X = true ↔ ∃ r ∈ X, ∃ v ∈ r, v < 0 := by
    simp [hasNegative]
  constructor
  · intro hneg
    have ht : hasNegative X = true := hiff.mpr hneg
    exact ⟨by simp [MultiNB.fit, ht], by simp [MultiNB.predict, ht]⟩
  · intro hpos
    have hf : hasNegative X = false := by
      rw [← Bool.not_eq_true, hiff]
      push_neg
      exact fun r hr v hv => hpos r hr v hv
    exact ⟨⟨_, by rw [MultiNB.fit, if_neg (by simp [hf])]⟩,
      ⟨_, by rw [MultiNB.predict, if_neg (by simp [hf])]⟩⟩

/-- C4: binarization maps `v` to 1 exactly when `v` strictly exceeds the
threshold and to 0 otherwise (a value equal to the threshold maps to 0); the
same binarization with the same threshold is applied during fit and during
predict: fitting sees only the binarized matrix (two matrices with the same
binarized pattern fit to identical models, and the threshold is stored
unchanged), and prediction sees only the binarized observation. -/
theorem binarization_strict_fit_predict (t v : ℚ) (X X' : FeatMatrix) (y : Labels)
    (α : ℚ) (fp : Bool) (m : BernParams) (x x' : Row) :
    (binarize t v = 1 ↔ t < v) ∧ (binarize t v = 0 ↔ v ≤ t) ∧ binarize t t = 0 ∧
    (BernNB.fit X y α t fp).threshold = t ∧
    (List.Forall₂ (SamePattern t) X X' →
      BernNB.fit X y α t fp = BernNB.fit X' y α t fp) ∧
    (SamePattern m.threshold x x' →
      BernNB.predictOne m x = BernNB.predictOne m x') := by
  refine ⟨binarize_eq_one_iff t v, binarize_eq_zero_iff t v, ?_, rfl, ?_, ?_⟩
  · exact (binarize_eq_zero_iff t t).mpr le_rfl
  · intro h
    exact bernFit_samePattern h y α fp
  · intro h
    exact bernPredictOne_samePattern m h

/-- C5: for every valid training dataset, the class priors of the fitted model
produced by any of the three fit operations sum to 1 over the two observed
labels, both with empirical prior fitting and with the uniform prior (the
statement quantifies over the `fit_prior` flag). -/
theorem class_priors_sum_to_one (X : FeatMatrix) (y : Labels) (α t : ℚ) (fp : Bool)
    (hv : ValidLabels y) :
    (BernNB.fit X y α t fp).priorLow + (BernNB.fit X y α t fp).priorHigh = 1 ∧
    (∀ m : MultiParams, MultiNB.fit X y α fp = .ok m →
      m.priorLow + m.priorHigh = 1) ∧
    (GaussNB.fit X y fp).priorLow + (GaussNB.fit X y fp).priorHigh = 1 := by
  refine ⟨classPrior_low_add_high hv fp, ?_, classPrior_low_add_high hv fp⟩
  intro m hm
  unfold MultiNB.fit at hm
  by_cases hneg : hasNegative X
  · simp [hneg] at hm
  · simp only [hneg, Bool.false_eq_true, if_false, Except.ok.injEq] at hm
    rw [← hm]
    exact classPrior_low_add_high hv fp

/-- C6: for every fitted model of each of the three variants and every
observation, predict returns the class whose posterior log score (log prior
plus summed per-feature log likelihoods) is maximal, and an exact tie is
broken toward the first (lower) class, deterministically; for the Bernoulli
model this connects the rational product-form decision actually computed to
the spec's log-score comparison, under the positivity of the fitted
probabilities. -/
theorem argmax_decision_rule (m : BernParams) (mm : MultiParams) (mg : GaussParams)
    (x : Row) (hl : 0 < m.priorLow) (hh : 0 < m.priorHigh)
    (hpl : ∀ p ∈ m.pLow, 0 < p ∧ p < 1) (hph : ∀ p ∈ m.pHigh, 0 < p ∧ p < 1) :
    ((bernLogScore m.priorLow m.pLow m.threshold x
        < bernLogScore m.priorHigh m.pHigh m.threshold x →
        BernNB.predictOne m x = m.classHigh) ∧
      (bernLogScore m.priorHigh m.pHigh m.threshold x
          ≤ bernLogScore m.priorLow m.pLow m.threshold x →
        BernNB.predictOne m x = m.classLow)) ∧
    ((multiLogScore mm.priorLow mm.pLow x < multiLogScore mm.priorHigh mm.pHigh x →
        MultiNB.predictOne mm x = mm.classHigh) ∧
      (multiLogScore mm.priorHigh mm.pHigh x ≤ multiLogScore mm.priorLow mm.pLow x →
        MultiNB.predictOne mm x = mm.classLow)) ∧
    ((gaussLogScore mg.priorLow mg.meanLow mg.varLow x
        < gaussLogScore mg.priorHigh mg.meanHigh mg.varHigh x →
        GaussNB.predictOne mg x = mg.classHigh) ∧
      (gaussLogScore mg.priorHigh mg.meanHigh mg.varHigh x
          ≤ gaussLogScore mg.priorLow mg.meanLow mg.varLow x →
        GaussNB.predictOne mg x = mg.classLow)) := by
  refine ⟨⟨?_, ?_⟩, ⟨?_, ?_⟩, ⟨?_, ?_⟩⟩
  · intro hlt
    unfold BernNB.predictOne
    rw [if_pos ((bernLogScore_lt_iff m x hl hh hpl hph).mp hlt)]
  · intro hle
    unfold BernNB.predictOne
    rw [if_neg (fun hc =>
      absurd ((bernLogScore_lt_iff m x hl hh hpl hph).mpr hc) (not_lt.mpr hle))]
  · intro hlt
    unfold MultiNB.predictOne
    rw [if_pos hlt]
  · intro hle
    unfold MultiNB.predictOne
    rw [if_neg (not_lt.mpr hle)]
  · intro hlt
    unfold GaussNB.predictOne
    rw [if_pos hlt]
  · intro hle
    unfold GaussNB.predictOne
    rw [if_neg (not_lt.mpr hle)]

/-- C7: evaluate returns precision `tp / (tp + fp)` and recall
`tp / (tp + fn)`; when the respective denominator is 0 the returned value is
the total rational 0 (no NaN, no exception) carrying the flag `defined =
false`, and otherwise the value multiplied by the denominator recovers the
true-positive count and the flag is `defined = true`. -/
theorem metric_zero_denominator (yt yp : Labels) :
    (truePos (highClass (yt ++ yp)) yt yp + falsePos (highClass (yt ++ yp)) yt yp = 0 →
      (evaluate yt yp).prec = ⟨0, false⟩) ∧
    (truePos (highClass (yt ++ yp)) yt yp + falsePos (highClass (yt ++ yp)) yt yp ≠ 0 →
      (evaluate yt yp).prec.defined = true ∧
        (evaluate yt yp).prec.value
            * ((truePos (highClass (yt ++ yp)) yt yp
                + falsePos (highClass (yt ++ yp)) yt yp : ℕ) : ℚ)
          = (truePos (highClass (yt ++ yp)) yt yp : ℚ)) ∧
    (truePos (highClass (yt ++ yp)) yt yp + falseNeg (highClass (yt ++ yp)) yt yp = 0 →
      (evaluate yt yp).recl = ⟨0, false⟩) ∧
    (truePos (highClass (yt ++ yp)) yt yp + falseNeg (highClass (yt ++ yp)) yt yp ≠ 0 →
      (evaluate yt yp).recl.defined = true ∧
        (evaluate yt yp).recl.value
            * ((truePos (highClass (yt ++ yp)) yt yp
                + falseNeg (highClass (yt ++ yp)) yt yp : ℕ) : ℚ)
          = (truePos (highClass (yt ++ yp)) yt yp : ℚ)) := by
  have hev1 : (evaluate yt yp).prec = precision_score yt yp := rfl
  have hev2 : (evaluate yt yp).recl = recall_score yt yp := rfl
  rw [hev1, hev2]
  simp only [precision_score, recall_score]
  refine ⟨?_, ?_, ?_, ?_⟩
  · intro h
    rw [if_pos h]
  · intro h
    rw [if_neg h]
    exact ⟨rfl, div_mul_cancel₀ _ (Nat.cast_ne_zero.mpr h)⟩
  · intro h
    rw [if_pos h]
  · intro h
    rw [if_neg h]
    exact ⟨rfl, div_mul_cancel₀ _ (Nat.cast_ne_zero.mpr h)⟩

/-- C8: for every pair of equal-length label vectors over the two labels, the
four entries of the confusion matrix returned by evaluate sum exactly to the
number of observations. -/
theorem confusion_matrix_total (yt yp : Labels) (hlen : yt.length = yp.length)
    (hne : lowClass (yt ++ yp) ≠ highClass (yt ++ yp))
    (hall : ∀ l ∈ yt ++ yp, l = lowClass (yt ++ yp) ∨ l = highClass (yt ++ yp)) :
    (evaluate yt yp).confusion.1 + (evaluate yt yp).confusion.2.1 +
      (evaluate yt yp).confusion.2.2.1 + (evaluate yt yp).confusion.2.2.2
      = yt.length := by
  have hzip : ∀ q ∈ yt.zip yp,
      (q.1 = lowClass (yt ++ yp) ∨ q.1 = highClass (yt ++ yp)) ∧
      (q.2 = lowClass (yt ++ yp) ∨ q.2 = highClass (yt ++ yp)) := by
    rintro ⟨a, b⟩ hq
    obtain ⟨h1, h2⟩ := List.of_mem_zip hq
    exact ⟨hall a (List.mem_append_left _ h1), hall b (List.mem_append_right _ h2)⟩
  have hpart := four_cell_partition (yt.zip yp) _ _ hne hzip
  have hzl : (yt.zip yp).length = yt.length := by
    rw [List.length_zip, hlen, min_self]
  show pairCount yt yp (lowClass (yt ++ yp)) (lowClass (yt ++ yp)) +
      pairCount yt yp (lowClass (yt ++ yp)) (highClass (yt ++ yp)) +
      pairCount yt yp (highClass (yt ++ yp)) (lowClass (yt ++ yp)) +
      pairCount yt yp (highClass (yt ++ yp)) (highClass (yt ++ yp)) = yt.length
  unfold pairCount
  rw [← hzl]
  exact hpart

/-- C9: every label returned by predict, for each of the three fitted model
variants, is one of the label values occurring in the training labels the
model was fitted on. -/
theorem predicted_labels_observed (X Xq : FeatMatrix) (y : Labels) (α t : ℚ)
    (fp : Bool) (hy : y ≠ []) :
    (∀ l ∈ BernNB.predict (BernNB.fit X y α t fp) Xq, l ∈ y) ∧
    (∀ mm : MultiParams, MultiNB.fit X y α fp = .ok mm →
      ∀ ls, MultiNB.predict mm Xq = .ok ls → ∀ l ∈ ls, l ∈ y) ∧
    (∀ l ∈ GaussNB.predict (GaussNB.fit X y fp) Xq, l ∈ y) := by
  refine ⟨?_, ?_, ?_⟩
  · intro l hl
    obtain ⟨x, _, rfl⟩ := List.mem_map.mp hl
    unfold BernNB.predictOne
    split
    · exact highClass_mem hy
    · exact lowClass_mem hy
  · intro mm hm ls hp l hl
    unfold MultiNB.fit at hm
    by_cases hneg : hasNegative X
    · simp [hneg] at hm
    · simp only [hneg, Bool.false_eq_true, if_false, Except.ok.injEq] at hm
      unfold MultiNB.predict at hp
      by_cases hq : hasNegative Xq
      · simp [hq] at hp
      · simp only [hq, Bool.false_eq_true, if_false, Except.ok.injEq] at hp
        rw [← hp] at hl
        obtain ⟨x, _, rfl⟩ := List.mem_map.mp hl
        unfold MultiNB.predictOne
        rw [← hm]
        split
        · exact highClass_mem hy
        · exact lowClass_mem hy
  · intro l hl
    obtain ⟨x, _, rfl⟩ := List.mem_map.mp hl
    unfold GaussNB.predictOne
    split
    · exact highClass_mem hy
    · exact lowClass_mem hy

/-- C10: with a fixed fitted Bernoulli parameter set, prediction depends only
on the binarized pattern of the observation: two observations whose features
fall on the same side of the threshold featurewise receive the same label;
consequently (for a binarization-idempotent threshold, `0 ≤ t < 1`, as in the
source's configurations) predict composed with binarize equals predict. -/
theorem bern_predict_binarized_pattern (m : BernParams) (x x' : Row)
    (hlen : x.length = x'.length)
    (hpat : ∀ j, j < x.length →
      (m.threshold < x.getD j 0 ↔ m.threshold < x'.getD j 0)) :
    BernNB.predictOne m x = BernNB.predictOne m x' ∧
    (0 ≤ m.threshold → m.threshold < 1 →
      BernNB.predictOne m (binarizeRow m.threshold x) = BernNB.predictOne m x) := by
  constructor
  · exact bernPredictOne_samePattern m ⟨hlen, hpat⟩
  · intro h0 h1
    exact bernPredictOne_samePattern m (samePattern_binarizeRow h0 h1 x)

/-! Witnesses: each claim theorem with a hypothesis applied at a concrete
input. -/

theorem bernoulli_fit_estimates_witness :
    ValidLabels [0, 1] ∧
      (BernNB.fit [[(1 : ℚ)], [(0 : ℚ)]] [0, 1] 1 (1/2) true).priorLow
        = (classCount [0, 1] (lowClass [0, 1]) : ℚ) / (([0, 1] : Labels).length : ℚ) :=
  ⟨by decide,
    ((bernoulli_fit_estimates [[(1 : ℚ)], [(0 : ℚ)]] [0, 1] 1 (1/2) true 0 (by decide)
      (by decide) (by decide)).2.2.1 rfl).1⟩

theorem multinomial_negative_input_witness :
    MultiNB.fit [[(-1 : ℚ)]] [0, 1] 1 true = .error .invalidInput ∧
      ∃ p, MultiNB.fit [[(2 : ℚ)]] [0, 1] 1 true = .ok p :=
  ⟨((multinomial_negative_input [[(-1 : ℚ)]] [0, 1] 1 true ⟨0, 1, 1, 1, [], []⟩).1
      ⟨[(-1 : ℚ)], by simp, (-1 : ℚ), by simp, by norm_num⟩).1,
    ((multinomial_negative_input [[(2 : ℚ)]] [0, 1] 1 true ⟨0, 1, 1, 1, [], []⟩).2
      (by norm_num)).1⟩

theorem binarization_strict_fit_predict_witness :
    List.Forall₂ (SamePattern (1/2 : ℚ)) [] [] ∧
      SamePattern (1/2 : ℚ) [] [] ∧
      BernNB.fit [] [0, 1] 1 (1/2 : ℚ) true = BernNB.fit [] [0, 1] 1 (1/2 : ℚ) true ∧
      BernNB.predictOne ⟨0, 1, 1/2, 1/2, [], [], 1/2⟩ []
        = BernNB.predictOne ⟨0, 1, 1/2, 1/2, [], [], 1/2⟩ [] :=
  ⟨List.Forall₂.nil, ⟨rfl, fun j hj => absurd hj (Nat.not_lt_zero j)⟩,
    (binarization_strict_fit_predict (1/2) 0 [] [] [0, 1] 1 true
      ⟨0, 1, 1/2, 1/2, [], [], 1/2⟩ [] []).2.2.2.2.1 List.Forall₂.nil,
    (binarization_strict_fit_predict (1/2) 0 [] [] [0, 1] 1 true
      ⟨0, 1, 1/2, 1/2, [], [], 1/2⟩ [] []).2.2.2.2.2
      ⟨rfl, fun j hj => absurd hj (Nat.not_lt_zero j)⟩⟩

theorem class_priors_sum_witness :
    ValidLabels [0, 1] ∧
      (BernNB.fit [[(1 : ℚ)]] [0, 1] 1 (1/2) true).priorLow
        + (BernNB.fit [[(1 : ℚ)]] [0, 1] 1 (1/2) true).priorHigh = 1 :=
  ⟨by decide, (class_priors_sum_to_one [[(1 : ℚ)]] [0, 1] 1 (1/2) true (by decide)).1⟩

theorem argmax_decision_rule_witness :
    (0 : ℚ) < 1/2 ∧ (∀ p ∈ [(1 : ℚ)/2], 0 < p ∧ p < 1) ∧
      (multiLogScore (1 : ℚ) [] [] < multiLogScore (1 : ℚ) [] [] →
        MultiNB.predictOne ⟨0, 1, 1, 1, [], []⟩ [] = 1) :=
  ⟨by norm_num, by norm_num,
    ((argmax_decision_rule ⟨0, 1, 1/2, 1/2, [1/2], [1/2], 1/2⟩ ⟨0, 1, 1, 1, [], []⟩
      ⟨0, 1, 1, 1, [], [], [], []⟩ [] (by norm_num) (by norm_num) (by norm_num)
      (by norm_num)).2.1).1⟩

theorem metric_zero_denominator_witness :
    truePos (highClass ([0, 1] ++ [0, 1])) [0, 1] [0, 1]
        + falsePos (highClass ([0, 1] ++ [0, 1])) [0, 1] [0, 1] ≠ 0 ∧
      (evaluate [0, 1] [0, 1]).prec.defined = true :=
  ⟨by decide, ((metric_zero_denominator [0, 1] [0, 1]).2.1 (by decide)).1⟩

theorem confusion_matrix_total_witness :
    ([0, 1] : Labels).length = ([1, 0] : Labels).length ∧
      (evaluate [0, 1] [1, 0]).confusion.1 + (evaluate [0, 1] [1, 0]).confusion.2.1 +
        (evaluate [0, 1] [1, 0]).confusion.2.2.1 +
        (evaluate [0, 1] [1, 0]).confusion.2.2.2 = ([0, 1] : Labels).length :=
  ⟨rfl, confusion_matrix_total [0, 1] [1, 0] rfl (by decide) (by decide)⟩

theorem predicted_labels_observed_witness :
    ([0, 1] : Labels) ≠ [] ∧
      ∀ l ∈ BernNB.predict (BernNB.fit [[(1 : ℚ)]] [0, 1] 1 (1/2) true) [], l ∈ [0, 1] :=
  ⟨by decide,
    (predicted_labels_observed [[(1 : ℚ)]] [] [0, 1] 1 (1/2) true (by decide)).1⟩

theorem bern_predict_binarized_pattern_witness :
    ([(1 : ℚ)]).length = ([(1 : ℚ)]).length ∧
      BernNB.predictOne ⟨0, 1, 1/2, 1/2, [1/2], [1/2], 1/2⟩ [(1 : ℚ)]
        = BernNB.predictOne ⟨0, 1, 1/2, 1/2, [1/2], [1/2], 1/2⟩ [(1 : ℚ)] :=
  ⟨rfl, (bern_predict_binarized_pattern ⟨0, 1, 1/2, 1/2, [1/2], [1/2], 1/2⟩
      [(1 : ℚ)] [(1 : ℚ)] rfl (fun _ _ => Iff.rfl)).1⟩
